import Mathlib

/-!
A shallow embedding of `groupelo.py`: a generalized Elo rating engine for
multi-player, multi-team matches.  Pure string manipulation (field splitting,
whitespace stripping, annotation-mark stripping) is modelled by computable
functions on `List Char`/`String`; ratings and rating deltas are modelled by
real numbers; the mutable tables of the `Elo` class become an explicit
`EloState` record threaded through `process`.  A Python `AssertionError`,
`NameError` or `ZeroDivisionError` aborting `Elo.process` is modelled by
`process` returning `none`.
-/

namespace Groupelo

/-- `STARTING_RATING = 1500` (groupelo.py line 31). -/
noncomputable def STARTING_RATING : ℝ := 1500

/-- The recognized category names (groupelo.py lines 32-37). -/
def CATEGORIES : List String :=
  ["overall", "group", "individual", "armed", "unarmed", "tournament", "exhibition"]

/-- Python `str.split(sep)` for a one-character separator, on character lists:
splitting never yields zero pieces, and an empty input yields one empty piece,
exactly as in Python. -/
def splitChar (sep : Char) : List Char → List (List Char)
  | [] => [[]]
  | c :: rest =>
    match splitChar sep rest with
    | [] => [[c]]
    | g :: gs => if c = sep then [] :: g :: gs else (c :: g) :: gs

/-- Python `s.split(sep)` for a one-character separator `sep`. -/
def pySplit (s : String) (sep : Char) : List String :=
  (splitChar sep s.data).map (fun l => ⟨l⟩)

/-- Python `s.strip()`: remove leading and trailing whitespace. -/
def pyStrip (s : String) : String :=
  ⟨((s.data.dropWhile Char.isWhitespace).reverse.dropWhile Char.isWhitespace).reverse⟩

/-- Python `s.startswith("#")`. -/
def startsHash (s : String) : Bool :=
  match s.data with
  | c :: _ => c == '#'
  | [] => false

/-- `explode` (groupelo.py lines 42-52): convert a list of comma-fields into a
list of sides, each side being the `&`-separated, whitespace-stripped tokens of
one field. -/
def explode (li : List String) : List (List String) :=
  li.map (fun el => (pySplit el '&').map pyStrip)

/-- The trailing-mark stripping loop of `bare_name` (and the inline `while`
loops in `Elo.process`), acting on a reversed character list. -/
def stripMarks : List Char → List Char
  | [] => []
  | c :: rest => if c = '*' ∨ c = '!' then stripMarks rest else c :: rest

/-- `bare_name` (groupelo.py lines 69-73): drop trailing `*` and `!` marks. -/
def bare_name (s : String) : String :=
  ⟨(stripMarks s.data.reverse).reverse⟩

/-- `win_expectancy` (groupelo.py lines 54-57). -/
noncomputable def win_expectancy (r1 r2 : ℝ) : ℝ :=
  1 / ((10 : ℝ) ^ ((r2 - r1) / 400) + 1)

/-- `rating_delta` (groupelo.py lines 59-67), with `k = 50`. -/
noncomputable def rating_delta (r1 r2 w : ℝ) : ℝ :=
  50 * (w - win_expectancy r1 r2)

/-- The mutable tables of the `Elo` class (groupelo.py lines 82-91), as one
state record.  `defaultdict` lookups are modelled by total functions carrying
the default value at every untouched name. -/
structure EloState where
  ratings : String → ℝ
  wins : String → ℕ
  losses : String → ℕ
  killings : String → ℕ
  maimings : String → ℕ

/-- A fresh `Elo` instance's tables: every rating 1500, every counter 0. -/
noncomputable def initState : EloState :=
  ⟨fun _ => STARTING_RATING, fun _ => 0, fun _ => 0, fun _ => 0, fun _ => 0⟩

/-- The `deltas = defaultdict(int)` accumulator (groupelo.py line 131):
a total value function (default 0) plus the list of keys that have been
touched, in first-touch order, mirroring the dict's key set. -/
structure Deltas where
  val : String → ℝ
  keys : List String

/-- The empty `deltas` dict. -/
noncomputable def dInit : Deltas := ⟨fun _ => 0, []⟩

/-- `deltas[k] += x` on a `defaultdict(int)`: add to the value and record the
key on first touch. -/
noncomputable def dadd (d : Deltas) (k : String) (x : ℝ) : Deltas :=
  ⟨Function.update d.val k (d.val k + x),
   if k ∈ d.keys then d.keys else d.keys ++ [k]⟩

/-- Statistics update for one winner token (groupelo.py lines 133-138):
wins, killings (count of `!`) and maimings (count of `*`), credited to the
`bare_name`-stripped participant. -/
def tallyWinner (st : EloState) (tok : String) : EloState :=
  let name := bare_name tok
  { st with
    wins := Function.update st.wins name (st.wins name + 1),
    killings := Function.update st.killings name (st.killings name + tok.data.count '!'),
    maimings := Function.update st.maimings name (st.maimings name + tok.data.count '*') }

/-- Statistics update for one loser token (groupelo.py lines 139-144). -/
def tallyLoser (st : EloState) (tok : String) : EloState :=
  let name := bare_name tok
  { st with
    losses := Function.update st.losses name (st.losses name + 1),
    killings := Function.update st.killings name (st.killings name + tok.data.count '!'),
    maimings := Function.update st.maimings name (st.maimings name + tok.data.count '*') }

/-- The winner inner loops for one loser (groupelo.py lines 151-161): one
winner-vs-loser sub-contest per winner token, incrementing `opponent_count`.
The two nested loops over `winner_lists` and each `winner_list` traverse
exactly the concatenation of all winner tokens, which is the list passed
here. -/
noncomputable def winnerFold (ratings : String → ℝ) (loser : String) :
    List String → Deltas → ℕ → Deltas × ℕ
  | [], d, oc => (d, oc)
  | w :: rest, d, oc =>
    let wn := bare_name w
    let delta := rating_delta (ratings wn) (ratings loser) 1
    winnerFold ratings loser rest (dadd (dadd d wn delta) loser (-delta)) (oc + 1)

/-- The later-losers loops for one loser (groupelo.py lines 162-174): one draw
sub-contest (result 0.5) per token of every strictly later losing side,
incrementing `opponent_count`.  The nested loops over sides `jj > ii` and
their tokens traverse exactly the concatenation of the later sides' tokens,
which is the list passed here. -/
noncomputable def drawFold (ratings : String → ℝ) (loser : String) :
    List String → Deltas → ℕ → Deltas × ℕ
  | [], d, oc => (d, oc)
  | t :: rest, d, oc =>
    let ln := bare_name t
    let delta := rating_delta (ratings loser) (ratings ln) (1 / 2)
    drawFold ratings loser rest (dadd (dadd d loser delta) ln (-delta)) (oc + 1)

/-- The body of `for loser in loser_list` for one loser token (groupelo.py
lines 147-174): strip the token, reset `opponent_count` to 0, run the winner
pass then the later-losers pass. -/
noncomputable def loserStep (ratings : String → ℝ) (ws later : List String)
    (tok : String) (d : Deltas) : Deltas × ℕ :=
  let p := winnerFold ratings (bare_name tok) ws d 0
  drawFold ratings (bare_name tok) later p.1 p.2

/-- `for loser in loser_list` (groupelo.py line 147) over one losing side:
thread the deltas dict, remembering the `opponent_count` value leaked by the
most recent iteration (`none` when the variable is still unbound). -/
noncomputable def sideFold (ratings : String → ℝ) (ws later : List String) :
    List String → Deltas → Option ℕ → Deltas × Option ℕ
  | [], d, oc => (d, oc)
  | t :: rest, d, _ =>
    let p := loserStep ratings ws later t d
    sideFold ratings ws later rest p.1 (some p.2)

/-- `for ii, loser_list in enumerate(loser_lists)` (groupelo.py line 146):
process each losing side against the winners and the strictly later sides. -/
noncomputable def loserLoop (ratings : String → ℝ) (ws : List String) :
    List (List String) → Deltas → Option ℕ → Deltas × Option ℕ
  | [], d, oc => (d, oc)
  | side :: rest, d, oc =>
    let p := sideFold ratings ws rest.flatten side d oc
    loserLoop ratings ws rest p.1 p.2

/-- The normalization-and-commit step (groupelo.py lines 175-179): divide each
accumulated delta by the leaked `opponent_count` and add it to the rating of
its participant, key by key. -/
noncomputable def applyDeltas (ratings : String → ℝ) (d : Deltas) (c : ℕ) :
    String → ℝ :=
  d.keys.foldl (fun r k => Function.update r k (r k + d.val k / (c : ℝ))) ratings

/-- One effective pairwise sub-contest: the perspective participant, the
opponent, and whether the result is a win (`true`, w = 1) or a draw
(`false`, w = 0.5).  Both names are annotation-stripped. -/
structure SC where
  self : String
  opp : String
  win : Bool
deriving DecidableEq, Repr

/-- The result value of a sub-contest: 1 for a win, 0.5 for a draw. -/
noncomputable def wval (b : Bool) : ℝ := if b then 1 else 1 / 2

/-- The sub-contests generated while processing the tokens of one losing side:
for each token, its winner-pairs then its later-loser draw pairs. -/
def subContestsSide (ws later side : List String) : List SC :=
  side.flatMap (fun tok =>
    ws.map (fun w => ⟨bare_name w, bare_name tok, true⟩) ++
    later.map (fun t => ⟨bare_name tok, bare_name t, false⟩))

/-- All effective sub-contests of a match, in the traversal order of the
nested loops of `Elo.process` (groupelo.py lines 146-174). -/
def subContests (ws : List String) : List (List String) → List SC
  | [] => []
  | side :: rest => subContestsSide ws rest.flatten side ++ subContests ws rest

/-- The contribution of one sub-contest to the accumulated delta of name `n`:
`+delta` from the perspective side, `-delta` from the opponent side. -/
noncomputable def contrib (ratings : String → ℝ) (e : SC) (n : String) : ℝ :=
  (if n = e.self then rating_delta (ratings e.self) (ratings e.opp) (wval e.win) else 0) +
  (if n = e.opp then -rating_delta (ratings e.self) (ratings e.opp) (wval e.win) else 0)

/-- The total un-normalized delta accumulated for name `n` over all
sub-contests of a match, computed from one fixed ratings snapshot. -/
noncomputable def matchDelta (ratings : String → ℝ) (ws : List String)
    (ls : List (List String)) (n : String) : ℝ :=
  ((subContests ws ls).map (fun e => contrib ratings e n)).sum

/-- The comma-fields of a line: `line.strip().split(",")` (groupelo.py
lines 95, 98). -/
def parsedParts (line : String) : List String :=
  pySplit (pyStrip line) ','

/-- All winner tokens of a line: `explode([parts[3]])` flattened (groupelo.py
lines 103, 105). -/
def winnerToks (line : String) : List String :=
  (explode [(parsedParts line).getD 3 ""]).flatten

/-- The losing sides of a line: `explode(parts[4:])` (groupelo.py
lines 104, 106). -/
def loserSides (line : String) : List (List String) :=
  explode ((parsedParts line).drop 4)

/-- The category filter (groupelo.py lines 108-128): `true` when the record is
skipped for this category. -/
def skips (category : String) (line : String) : Bool :=
  let parts := parsedParts line
  let armed_unarmed := pyStrip (parts.getD 1 "")
  let tournament_exhibition := pyStrip (parts.getD 2 "")
  let winner_lists := explode [parts.getD 3 ""]
  let loser_lists := explode (parts.drop 4)
  if category = "group" then
    (winner_lists.headD []).length == 1 && loser_lists.length == 1
  else if category = "individual" then
    decide (1 < (winner_lists.headD []).length) || decide (1 < loser_lists.length)
  else if category = "armed" ∨ category = "unarmed" then
    armed_unarmed != category
  else if category = "tournament" ∨ category = "exhibition" then
    tournament_exhibition != category
  else false

/-- The statistics pass of `Elo.process` (groupelo.py lines 133-144): tally
all winner tokens, then all loser tokens.  The two-level nested loops over
sides and their tokens traverse exactly the concatenation of all tokens. -/
def statsPass (st : EloState) (ws : List String) (ls : List (List String)) :
    EloState :=
  ls.flatten.foldl tallyLoser (ws.foldl tallyWinner st)

/-- The statistics pass plus delta accumulation, normalization and commit of
`Elo.process` (groupelo.py lines 130-179), given the flattened winner tokens
and the losing sides.  Returns `none` when the Python code would raise: a
`NameError` reading the never-assigned `opponent_count` while iterating a
non-empty deltas dict, or a `ZeroDivisionError`. -/
noncomputable def processMatch (st : EloState) (ws : List String)
    (ls : List (List String)) : Option EloState :=
  let st2 := statsPass st ws ls
  match (loserLoop st2.ratings ws ls dInit none).1.keys,
        (loserLoop st2.ratings ws ls dInit none).2 with
  | [], _ => some st2
  | _ :: _, none => none
  | _ :: _, some c =>
    if c = 0 then none
    else some { st2 with
      ratings := applyDeltas st2.ratings (loserLoop st2.ratings ws ls dInit none).1 c }

/-- `Elo.process` (groupelo.py lines 93-179): skip blank and comment lines,
reject lines with fewer than 4 comma-fields (`assert len(parts) >= 4`), apply
the category filter, then tally statistics and update ratings. -/
noncomputable def process (category : String) (st : EloState) (line : String) :
    Option EloState :=
  if (pyStrip line).data.isEmpty || startsHash (pyStrip line) then some st
  else if (parsedParts line).length < 4 then none
  else if skips category line then some st
  else processMatch st (winnerToks line) (loserSides line)

/-- `Elo.process_all` (groupelo.py lines 181-184) over a list of lines,
propagating a fatal error. -/
noncomputable def processAll (category : String) (st : EloState) :
    List String → Option EloState
  | [] => some st
  | line :: rest =>
    match process category st line with
    | none => none
    | some st' => processAll category st' rest

/-- The participants touched by the sub-contests of a line's match. -/
def participants (line : String) : Finset String :=
  ((subContests (winnerToks line) (loserSides line)).flatMap
    (fun e => [e.self, e.opp])).toFinset

/-- Well-formedness of the deltas dict: the key list has no duplicates, the
value is 0 away from the keys, and every key is an annotation-stripped name. -/
def DWF (d : Deltas) : Prop :=
  d.keys.Nodup ∧ (∀ n, n ∉ d.keys → d.val n = 0) ∧ ∀ k ∈ d.keys, bare_name k = k

/-! ### Basic facts about the string helpers -/

lemma splitChar_ne_nil (sep : Char) (l : List Char) : splitChar sep l ≠ [] := by
  cases l with
  | nil => simp [splitChar]
  | cons c rest =>
    unfold splitChar
    cases h : splitChar sep rest with
    | nil => simp
    | cons g gs =>
      split
      · simp
      · split <;> simp

lemma pySplit_ne_nil (s : String) (sep : Char) : pySplit s sep ≠ [] := by
  simpa [pySplit] using splitChar_ne_nil sep s.data

lemma explode_mem_ne_nil {li : List String} {s : List String}
    (h : s ∈ explode li) : s ≠ [] := by
  simp only [explode, List.mem_map] at h
  obtain ⟨el, -, rfl⟩ := h
  simpa using pySplit_ne_nil el '&'

lemma winnerToks_eq (line : String) :
    winnerToks line = (pySplit ((parsedParts line).getD 3 "") '&').map pyStrip := by
  simp [winnerToks, explode]

lemma winnerToks_ne_nil (line : String) : winnerToks line ≠ [] := by
  rw [winnerToks_eq]
  simpa using pySplit_ne_nil ((parsedParts line).getD 3 "") '&'

lemma stripMarks_idem (l : List Char) : stripMarks (stripMarks l) = stripMarks l := by
  induction l with
  | nil => rfl
  | cons c rest ih =>
    by_cases h : c = '*' ∨ c = '!'
    · simp [stripMarks, h, ih]
    · simp [stripMarks, h]

lemma bare_name_idem (s : String) : bare_name (bare_name s) = bare_name s := by
  simp [bare_name, stripMarks_idem]

/-! ### The deltas dictionary -/

lemma DWF_dInit : DWF dInit := by
  refine ⟨List.nodup_nil, fun n _ => rfl, fun k hk => ?_⟩
  simp [dInit] at hk

lemma dadd_val (d : Deltas) (k : String) (x : ℝ) (n : String) :
    (dadd d k x).val n = d.val n + if n = k then x else 0 := by
  by_cases h : n = k
  · subst h; simp [dadd, Function.update_apply]
  · simp [dadd, Function.update_apply, h]

lemma dadd_keys_mem (d : Deltas) (k : String) (x : ℝ) {j : String} :
    j ∈ (dadd d k x).keys ↔ j = k ∨ j ∈ d.keys := by
  simp only [dadd]
  split
  · next h => constructor
              · exact fun hj => Or.inr hj
              · rintro (rfl | hj) <;> [exact h; exact hj]
  · simp [or_comm]

lemma dadd_nodup {d : Deltas} (hnd : d.keys.Nodup) (k : String) (x : ℝ) :
    (dadd d k x).keys.Nodup := by
  simp only [dadd]
  split
  · exact hnd
  · next h =>
    refine List.Nodup.append hnd (List.nodup_singleton k) ?_
    simpa [List.disjoint_singleton] using h

lemma DWF_dadd {d : Deltas} (hd : DWF d) (k : String) (hk : bare_name k = k)
    (x : ℝ) : DWF (dadd d k x) := by
  obtain ⟨hnd, hz, hb⟩ := hd
  refine ⟨dadd_nodup hnd k x, ?_, ?_⟩
  · intro n hn
    rw [dadd_keys_mem] at hn
    push_neg at hn
    rw [dadd_val, if_neg hn.1, hz n hn.2, add_zero]
  · intro j hj
    rw [dadd_keys_mem] at hj
    rcases hj with rfl | hj
    · exact hk
    · exact hb j hj

lemma dadd_keys_ne_nil (d : Deltas) (k : String) (x : ℝ) :
    (dadd d k x).keys ≠ [] := by
  intro h
  have : k ∈ (dadd d k x).keys := (dadd_keys_mem d k x).mpr (Or.inl rfl)
  simp [h] at this

/-! ### The nested delta loops compute sub-contest contribution sums -/

lemma winnerFold_val (r : String → ℝ) (lo : String) (ws : List String) :
    ∀ (d : Deltas) (oc : ℕ) (n : String),
      (winnerFold r lo ws d oc).1.val n =
        d.val n + ((ws.map (fun w => contrib r ⟨bare_name w, lo, true⟩ n)).sum) := by
  induction ws with
  | nil => intro d oc n; simp [winnerFold]
  | cons w rest ih =>
    intro d oc n
    simp only [winnerFold, List.map_cons, List.sum_cons]
    rw [ih]
    simp only [dadd_val, contrib, wval, if_true, Bool.false_eq_true, if_false]
    ring

lemma drawFold_val (r : String → ℝ) (lo : String) (ts : List String) :
    ∀ (d : Deltas) (oc : ℕ) (n : String),
      (drawFold r lo ts d oc).1.val n =
        d.val n + ((ts.map (fun t => contrib r ⟨lo, bare_name t, false⟩ n)).sum) := by
  induction ts with
  | nil => intro d oc n; simp [drawFold]
  | cons t rest ih =>
    intro d oc n
    simp only [drawFold, List.map_cons, List.sum_cons]
    rw [ih]
    simp only [dadd_val, contrib, wval, if_true, Bool.false_eq_true, if_false]
    ring

lemma loserStep_val (r : String → ℝ) (ws later : List String) (tok : String)
    (d : Deltas) (n : String) :
    (loserStep r ws later tok d).1.val n =
      d.val n +
        (((ws.map (fun w => contrib r ⟨bare_name w, bare_name tok, true⟩ n)).sum) +
         ((later.map (fun t => contrib r ⟨bare_name tok, bare_name t, false⟩ n)).sum)) := by
  simp only [loserStep]
  rw [drawFold_val, winnerFold_val]
  ring

lemma sideFold_val (r : String → ℝ) (ws later : List String) (ts : List String) :
    ∀ (d : Deltas) (oc : Option ℕ) (n : String),
      (sideFold r ws later ts d oc).1.val n =
        d.val n + ((subContestsSide ws later ts).map (fun e => contrib r e n)).sum := by
  induction ts with
  | nil => intro d oc n; simp [sideFold, subContestsSide]
  | cons t rest ih =>
    intro d oc n
    simp only [sideFold]
    rw [ih, loserStep_val]
    simp only [subContestsSide, List.flatMap_cons, List.map_append, List.sum_append,
      List.map_map, Function.comp_def]
    ring

lemma loserLoop_val (r : String → ℝ) (ws : List String) (ls : List (List String)) :
    ∀ (d : Deltas) (oc : Option ℕ) (n : String),
      (loserLoop r ws ls d oc).1.val n =
        d.val n + ((subContests ws ls).map (fun e => contrib r e n)).sum := by
  induction ls with
  | nil => intro d oc n; simp [loserLoop, subContests]
  | cons side rest ih =>
    intro d oc n
    simp only [loserLoop]
    rw [ih, sideFold_val]
    simp only [subContests, List.map_append, List.sum_append]
    ring

/-! ### The leaked opponent count -/

lemma winnerFold_oc (r : String → ℝ) (lo : String) (ws : List String) :
    ∀ (d : Deltas) (oc : ℕ), (winnerFold r lo ws d oc).2 = oc + ws.length := by
  induction ws with
  | nil => intro d oc; simp [winnerFold]
  | cons w rest ih =>
    intro d oc
    simp only [winnerFold, List.length_cons]
    rw [ih]
    omega

lemma drawFold_oc (r : String → ℝ) (lo : String) (ts : List String) :
    ∀ (d : Deltas) (oc : ℕ), (drawFold r lo ts d oc).2 = oc + ts.length := by
  induction ts with
  | nil => intro d oc; simp [drawFold]
  | cons t rest ih =>
    intro d oc
    simp only [drawFold, List.length_cons]
    rw [ih]
    omega

lemma loserStep_oc (r : String → ℝ) (ws later : List String) (tok : String)
    (d : Deltas) : (loserStep r ws later tok d).2 = ws.length + later.length := by
  simp only [loserStep]
  rw [drawFold_oc, winnerFold_oc]
  omega

lemma sideFold_oc (r : String → ℝ) (ws later : List String) (ts : List String)
    (h : ts ≠ []) : ∀ (d : Deltas) (oc : Option ℕ),
      (sideFold r ws later ts d oc).2 = some (ws.length + later.length) := by
  induction ts with
  | nil => exact absurd rfl h
  | cons t rest ih =>
    intro d oc
    simp only [sideFold]
    cases hr : rest with
    | nil => subst hr; simp [sideFold, loserStep_oc]
    | cons a b => subst hr; exact ih (by simp) _ _

lemma loserLoop_oc (r : String → ℝ) (ws : List String) (ls : List (List String)) :
    (∀ s ∈ ls, s ≠ []) → ls ≠ [] →
    ∀ (d : Deltas) (oc : Option ℕ),
      (loserLoop r ws ls d oc).2 = some ws.length := by
  induction ls with
  | nil => intro _ h; exact absurd rfl h
  | cons side rest ih =>
    intro hs _ d oc
    simp only [loserLoop]
    cases hr : rest with
    | nil =>
      subst hr
      simp only [loserLoop]
      rw [sideFold_oc r ws _ side (hs side (by simp))]
      simp
    | cons a b =>
      subst hr
      exact ih (fun s hsm => hs s (by simp [hsm])) (by simp) _ _

/-! ### Well-formedness of the accumulated deltas -/

lemma DWF_winnerFold (r : String → ℝ) {lo : String} (hlo : bare_name lo = lo)
    (ws : List String) : ∀ {d : Deltas}, DWF d → ∀ oc,
      DWF (winnerFold r lo ws d oc).1 := by
  induction ws with
  | nil => intro d hd oc; simpa [winnerFold] using hd
  | cons w rest ih =>
    intro d hd oc
    simp only [winnerFold]
    exact ih (DWF_dadd (DWF_dadd hd _ (bare_name_idem w) _) lo hlo _) _

lemma DWF_drawFold (r : String → ℝ) {lo : String} (hlo : bare_name lo = lo)
    (ts : List String) : ∀ {d : Deltas}, DWF d → ∀ oc,
      DWF (drawFold r lo ts d oc).1 := by
  induction ts with
  | nil => intro d hd oc; simpa [drawFold] using hd
  | cons t rest ih =>
    intro d hd oc
    simp only [drawFold]
    exact ih (DWF_dadd (DWF_dadd hd lo hlo _) _ (bare_name_idem t) _) _

lemma DWF_loserStep (r : String → ℝ) (ws later : List String) (tok : String)
    {d : Deltas} (hd : DWF d) : DWF (loserStep r ws later tok d).1 := by
  simp only [loserStep]
  exact DWF_drawFold r (bare_name_idem tok) later
    (DWF_winnerFold r (bare_name_idem tok) ws hd 0) _

lemma DWF_sideFold (r : String → ℝ) (ws later : List String) (ts : List String) :
    ∀ {d : Deltas}, DWF d → ∀ oc, DWF (sideFold r ws later ts d oc).1 := by
  induction ts with
  | nil => intro d hd oc; simpa [sideFold] using hd
  | cons t rest ih =>
    intro d hd oc
    simp only [sideFold]
    exact ih (DWF_loserStep r ws later t hd) _

lemma DWF_loserLoop (r : String → ℝ) (ws : List String) (ls : List (List String)) :
    ∀ {d : Deltas}, DWF d → ∀ oc, DWF (loserLoop r ws ls d oc).1 := by
  induction ls with
  | nil => intro d hd oc; simpa [loserLoop] using hd
  | cons side rest ih =>
    intro d hd oc
    simp only [loserLoop]
    exact ih (DWF_sideFold r ws rest.flatten side hd _) _

/-! ### The commit step -/

lemma applyDeltas_foldl (f : String → ℝ) (c : ℕ) :
    ∀ (l : List String), l.Nodup → ∀ (r : String → ℝ) (n : String),
      (l.foldl (fun r k => Function.update r k (r k + f k / (c : ℝ))) r) n =
        if n ∈ l then r n + f n / (c : ℝ) else r n := by
  intro l
  induction l with
  | nil => intros; simp
  | cons k rest ih =>
    intro hnd r n
    simp only [List.foldl_cons]
    rw [ih (List.nodup_cons.mp hnd).2]
    by_cases hmem : n ∈ rest
    · have hnk : n ≠ k := fun h => (List.nodup_cons.mp hnd).1 (h ▸ hmem)
      simp [hmem, hnk, Function.update_apply, List.mem_cons]
    · by_cases hnk : n = k
      · subst hnk
        simp [hmem, Function.update_apply]
      · simp [hmem, hnk, Function.update_apply, List.mem_cons]

lemma applyDeltas_val {d : Deltas} (hd : DWF d) (r : String → ℝ) (c : ℕ)
    (n : String) : applyDeltas r d c n = r n + d.val n / (c : ℝ) := by
  rw [applyDeltas, applyDeltas_foldl d.val c d.keys hd.1 r n]
  by_cases h : n ∈ d.keys
  · simp [h]
  · simp [h, hd.2.1 n h]

/-! ### The statistics pass -/

lemma foldl_tallyWinner_ratings (toks : List String) :
    ∀ st : EloState, (toks.foldl tallyWinner st).ratings = st.ratings := by
  induction toks with
  | nil => intro st; rfl
  | cons t rest ih => intro st; rw [List.foldl_cons, ih]; rfl

lemma foldl_tallyLoser_ratings (toks : List String) :
    ∀ st : EloState, (toks.foldl tallyLoser st).ratings = st.ratings := by
  induction toks with
  | nil => intro st; rfl
  | cons t rest ih => intro st; rw [List.foldl_cons, ih]; rfl

lemma statsPass_ratings (st : EloState) (ws : List String)
    (ls : List (List String)) : (statsPass st ws ls).ratings = st.ratings := by
  rw [statsPass, foldl_tallyLoser_ratings, foldl_tallyWinner_ratings]

lemma foldl_tallyWinner_wins (toks : List String) :
    ∀ (st : EloState) (n : String),
      (toks.foldl tallyWinner st).wins n =
        st.wins n + (toks.filter (fun t => bare_name t == n)).length := by
  induction toks with
  | nil => intro st n; simp
  | cons t rest ih =>
    intro st n
    rw [List.foldl_cons, ih]
    by_cases h : bare_name t = n
    · subst h
      simp [tallyWinner, Function.update_apply, List.filter_cons]
      omega
    · simp [tallyWinner, Function.update_apply, List.filter_cons, h, Ne.symm h]

lemma foldl_tallyWinner_losses (toks : List String) :
    ∀ (st : EloState) (n : String),
      (toks.foldl tallyWinner st).losses n = st.losses n := by
  induction toks with
  | nil => intro st n; simp
  | cons t rest ih => intro st n; rw [List.foldl_cons, ih]; rfl

lemma foldl_tallyWinner_killings (toks : List String) :
    ∀ (st : EloState) (n : String),
      (toks.foldl tallyWinner st).killings n =
        st.killings n +
          (((toks.filter (fun t => bare_name t == n)).map
            (fun t => t.data.count '!')).sum) := by
  induction toks with
  | nil => intro st n; simp
  | cons t rest ih =>
    intro st n
    rw [List.foldl_cons, ih]
    by_cases h : bare_name t = n
    · subst h
      simp [tallyWinner, Function.update_apply, List.filter_cons]
      omega
    · simp [tallyWinner, Function.update_apply, List.filter_cons, h, Ne.symm h]

lemma foldl_tallyWinner_maimings (toks : List String) :
    ∀ (st : EloState) (n : String),
      (toks.foldl tallyWinner st).maimings n =
        st.maimings n +
          (((toks.filter (fun t => bare_name t == n)).map
            (fun t => t.data.count '*')).sum) := by
  induction toks with
  | nil => intro st n; simp
  | cons t rest ih =>
    intro st n
    rw [List.foldl_cons, ih]
    by_cases h : bare_name t = n
    · subst h
      simp [tallyWinner, Function.update_apply, List.filter_cons]
      omega
    · simp [tallyWinner, Function.update_apply, List.filter_cons, h, Ne.symm h]

lemma foldl_tallyLoser_wins (toks : List String) :
    ∀ (st : EloState) (n : String),
      (toks.foldl tallyLoser st).wins n = st.wins n := by
  induction toks with
  | nil => intro st n; simp
  | cons t rest ih => intro st n; rw [List.foldl_cons, ih]; rfl

lemma foldl_tallyLoser_losses (toks : List String) :
    ∀ (st : EloState) (n : String),
      (toks.foldl tallyLoser st).losses n =
        st.losses n + (toks.filter (fun t => bare_name t == n)).length := by
  induction toks with
  | nil => intro st n; simp
  | cons t rest ih =>
    intro st n
    rw [List.foldl_cons, ih]
    by_cases h : bare_name t = n
    · subst h
      simp [tallyLoser, Function.update_apply, List.filter_cons]
      omega
    · simp [tallyLoser, Function.update_apply, List.filter_cons, h, Ne.symm h]

lemma foldl_tallyLoser_killings (toks : List String) :
    ∀ (st : EloState) (n : String),
      (toks.foldl tallyLoser st).killings n =
        st.killings n +
          (((toks.filter (fun t => bare_name t == n)).map
            (fun t => t.data.count '!')).sum) := by
  induction toks with
  | nil => intro st n; simp
  | cons t rest ih =>
    intro st n
    rw [List.foldl_cons, ih]
    by_cases h : bare_name t = n
    · subst h
      simp [tallyLoser, Function.update_apply, List.filter_cons]
      omega
    · simp [tallyLoser, Function.update_apply, List.filter_cons, h, Ne.symm h]

lemma foldl_tallyLoser_maimings (toks : List String) :
    ∀ (st : EloState) (n : String),
      (toks.foldl tallyLoser st).maimings n =
        st.maimings n +
          (((toks.filter (fun t => bare_name t == n)).map
            (fun t => t.data.count '*')).sum) := by
  induction toks with
  | nil => intro st n; simp
  | cons t rest ih =>
    intro st n
    rw [List.foldl_cons, ih]
    by_cases h : bare_name t = n
    · subst h
      simp [tallyLoser, Function.update_apply, List.filter_cons]
      omega
    · simp [tallyLoser, Function.update_apply, List.filter_cons, h, Ne.symm h]

/-! ### The behaviour of one full apply-match call -/

lemma matchDelta_nil (r : String → ℝ) (ws : List String) (n : String) :
    matchDelta r ws [] n = 0 := by
  simp [matchDelta, subContests]

/-- Master specification of `processMatch` on well-shaped sides (as produced
by `explode`): it succeeds, the statistics are those of the statistics pass,
and every rating moves by the accumulated sub-contest deltas computed from the
pre-match ratings, divided by the number of winner tokens (the leaked
`opponent_count`). -/
lemma processMatch_spec (st : EloState) (ws : List String)
    (ls : List (List String)) (hws : ws ≠ []) (hls : ∀ s ∈ ls, s ≠ []) :
    ∃ st', processMatch st ws ls = some st' ∧
      (∀ n, st'.ratings n =
        st.ratings n + matchDelta st.ratings ws ls n / (ws.length : ℝ)) ∧
      st'.wins = (statsPass st ws ls).wins ∧
      st'.losses = (statsPass st ws ls).losses ∧
      st'.killings = (statsPass st ws ls).killings ∧
      st'.maimings = (statsPass st ws ls).maimings := by
  have hdwf : DWF (loserLoop (statsPass st ws ls).ratings ws ls dInit none).1 :=
    DWF_loserLoop _ _ _ DWF_dInit _
  have hval : ∀ n,
      (loserLoop (statsPass st ws ls).ratings ws ls dInit none).1.val n =
        matchDelta st.ratings ws ls n := by
    intro n
    rw [loserLoop_val, statsPass_ratings]
    simp [dInit, matchDelta]
  cases hl : ls with
  | nil =>
    subst hl
    refine ⟨statsPass st ws [], ?_, ?_, rfl, rfl, rfl, rfl⟩
    · simp only [processMatch]
      simp [loserLoop, dInit]
    · intro n
      rw [statsPass_ratings, matchDelta_nil, zero_div, add_zero]
  | cons side rest =>
    subst hl
    have hoc :
        (loserLoop (statsPass st ws (side :: rest)).ratings ws (side :: rest)
          dInit none).2 = some ws.length :=
      loserLoop_oc _ _ _ hls (by simp) _ _
    have hlen : ws.length ≠ 0 := by
      intro h0
      exact hws (List.length_eq_zero.mp h0)
    rcases hk : (loserLoop (statsPass st ws (side :: rest)).ratings ws
        (side :: rest) dInit none).1.keys with _ | ⟨k, ks⟩
    · have hzero : ∀ n,
          (loserLoop (statsPass st ws (side :: rest)).ratings ws (side :: rest)
            dInit none).1.val n = 0 := by
        intro n
        exact hdwf.2.1 n (by rw [hk]; simp)
      refine ⟨statsPass st ws (side :: rest), ?_, ?_, rfl, rfl, rfl, rfl⟩
      · simp only [processMatch]
        rw [hk, hoc]
      · intro n
        rw [statsPass_ratings, ← hval n, hzero n, zero_div, add_zero]
    · refine ⟨{ statsPass st ws (side :: rest) with
          ratings := applyDeltas (statsPass st ws (side :: rest)).ratings
            (loserLoop (statsPass st ws (side :: rest)).ratings ws
              (side :: rest) dInit none).1 ws.length }, ?_, ?_, rfl, rfl, rfl, rfl⟩
      · simp only [processMatch]
        rw [hk, hoc]
        simp [hlen]
      · intro n
        show applyDeltas _ _ _ n = _
        rw [applyDeltas_val hdwf, hval n, statsPass_ratings]

/-! ### From a raw line to an apply-match call -/

lemma loserSides_sides_ne_nil (line : String) : ∀ s ∈ loserSides line, s ≠ [] :=
  fun _ hs => explode_mem_ne_nil hs

lemma process_eq_processMatch (cat : String) (st : EloState) (line : String)
    (hb : ((pyStrip line).data.isEmpty || startsHash (pyStrip line)) = false)
    (hlen : ¬(parsedParts line).length < 4)
    (hsk : skips cat line = false) :
    process cat st line = processMatch st (winnerToks line) (loserSides line) := by
  simp [process, hb, hlen, hsk]

/-- Master specification of an accepted, non-filtered `process` call. -/
lemma process_spec (cat : String) (st : EloState) (line : String)
    (hb : ((pyStrip line).data.isEmpty || startsHash (pyStrip line)) = false)
    (hlen : ¬(parsedParts line).length < 4)
    (hsk : skips cat line = false) :
    ∃ st', process cat st line = some st' ∧
      (∀ n, st'.ratings n = st.ratings n +
        matchDelta st.ratings (winnerToks line) (loserSides line) n /
          ((winnerToks line).length : ℝ)) ∧
      st'.wins = (statsPass st (winnerToks line) (loserSides line)).wins ∧
      st'.losses = (statsPass st (winnerToks line) (loserSides line)).losses ∧
      st'.killings = (statsPass st (winnerToks line) (loserSides line)).killings ∧
      st'.maimings = (statsPass st (winnerToks line) (loserSides line)).maimings := by
  rw [process_eq_processMatch cat st line hb hlen hsk]
  exact processMatch_spec st _ _ (winnerToks_ne_nil line) (loserSides_sides_ne_nil line)

lemma process_some_cases (cat : String) (st : EloState) (line : String)
    (st' : EloState) (h : process cat st line = some st') :
    st' = st ∨ processMatch st (winnerToks line) (loserSides line) = some st' := by
  by_cases hb : ((pyStrip line).data.isEmpty || startsHash (pyStrip line)) = true
  · left
    simp only [process, if_pos hb, Option.some.injEq] at h
    exact h.symm
  · by_cases hlen : (parsedParts line).length < 4
    · exfalso
      simp [process, hb, hlen] at h
    · by_cases hsk : skips cat line = true
      · left
        simp [process, hb, hlen, hsk] at h
        exact h.symm
      · right
        rw [← h, process_eq_processMatch cat st line
          (Bool.not_eq_true _ ▸ hb) hlen (Bool.not_eq_true _ ▸ hsk)]

/-! ### Only stripped names are ever touched -/

lemma statsPass_nonbare (st : EloState) (ws : List String)
    (ls : List (List String)) {n : String} (hn : bare_name n ≠ n) :
    (statsPass st ws ls).wins n = st.wins n ∧
    (statsPass st ws ls).losses n = st.losses n ∧
    (statsPass st ws ls).killings n = st.killings n ∧
    (statsPass st ws ls).maimings n = st.maimings n := by
  have hf : ∀ toks : List String,
      toks.filter (fun t => bare_name t == n) = [] := by
    intro toks
    rw [List.filter_eq_nil_iff]
    intro t _
    simp only [beq_iff_eq]
    intro he
    exact hn (by rw [← he, bare_name_idem])
  refine ⟨?_, ?_, ?_, ?_⟩
  · rw [statsPass, foldl_tallyLoser_wins, foldl_tallyWinner_wins, hf]
    simp
  · rw [statsPass, foldl_tallyLoser_losses, foldl_tallyWinner_losses, hf]
    simp
  · rw [statsPass, foldl_tallyLoser_killings, foldl_tallyWinner_killings, hf, hf]
    simp
  · rw [statsPass, foldl_tallyLoser_maimings, foldl_tallyWinner_maimings, hf, hf]
    simp

lemma subContests_bare (ws : List String) (ls : List (List String)) :
    ∀ e ∈ subContests ws ls, bare_name e.self = e.self ∧ bare_name e.opp = e.opp := by
  induction ls with
  | nil => simp [subContests]
  | cons side rest ih =>
    intro e he
    simp only [subContests, List.mem_append] at he
    rcases he with he | he
    · simp only [subContestsSide, List.mem_flatMap, List.mem_append,
        List.mem_map] at he
      obtain ⟨tok, -, he⟩ := he
      rcases he with ⟨w, -, rfl⟩ | ⟨t, -, rfl⟩ <;>
        exact ⟨bare_name_idem _, bare_name_idem _⟩
    · exact ih e he

lemma matchDelta_nonbare (r : String → ℝ) (ws : List String)
    (ls : List (List String)) {n : String} (hn : bare_name n ≠ n) :
    matchDelta r ws ls n = 0 := by
  rw [matchDelta]
  apply List.sum_eq_zero
  intro x hx
  simp only [List.mem_map] at hx
  obtain ⟨e, he, rfl⟩ := hx
  have hb := subContests_bare ws ls e he
  rw [contrib, if_neg, if_neg, add_zero]
  · intro heq
    exact hn (by rw [heq]; exact hb.2)
  · intro heq
    exact hn (by rw [heq]; exact hb.1)

/-! ### Zero-sum of the committed deltas -/

lemma sum_contrib_single (r : String → ℝ) (e : SC) (S : Finset String)
    (hs : e.self ∈ S) (ho : e.opp ∈ S) :
    S.sum (fun n => contrib r e n) = 0 := by
  simp only [contrib]
  rw [Finset.sum_add_distrib, Finset.sum_ite_eq' S e.self,
    Finset.sum_ite_eq' S e.opp, if_pos hs, if_pos ho]
  ring

lemma sum_contrib_list_zero (r : String → ℝ) (S : Finset String) :
    ∀ l : List SC, (∀ e ∈ l, e.self ∈ S ∧ e.opp ∈ S) →
      S.sum (fun n => (l.map (fun e => contrib r e n)).sum) = 0 := by
  intro l
  induction l with
  | nil => intro _; simp
  | cons e es ih =>
    intro hcov
    simp only [List.map_cons, List.sum_cons]
    rw [Finset.sum_add_distrib, ih (fun x hx => hcov x (by simp [hx])),
      add_zero, sum_contrib_single r e S (hcov e (by simp)).1 (hcov e (by simp)).2]

lemma sum_matchDelta_zero (r : String → ℝ) (ws : List String)
    (ls : List (List String)) (S : Finset String)
    (hcov : ∀ e ∈ subContests ws ls, e.self ∈ S ∧ e.opp ∈ S) :
    S.sum (fun n => matchDelta r ws ls n) = 0 := by
  simpa [matchDelta] using sum_contrib_list_zero r S (subContests ws ls) hcov

/-! ### Claim theorems -/

/-- C6: for all ratings, `win_expectancy` satisfies `We(r, r) = 0.5`, is
strictly monotonic in the rating difference `r1 - r2`, is bounded in the open
interval `(0, 1)`, and satisfies `We(r1, r2) + We(r2, r1) = 1`. -/
theorem C6_win_expectancy_properties :
    (∀ r : ℝ, win_expectancy r r = 1 / 2) ∧
    (∀ r1 r2 s1 s2 : ℝ, r1 - r2 < s1 - s2 →
      win_expectancy r1 r2 < win_expectancy s1 s2) ∧
    (∀ r1 r2 : ℝ, 0 < win_expectancy r1 r2 ∧ win_expectancy r1 r2 < 1) ∧
    (∀ r1 r2 : ℝ, win_expectancy r1 r2 + win_expectancy r2 r1 = 1) := by
  have hpos : ∀ x : ℝ, (0 : ℝ) < (10 : ℝ) ^ x := fun x =>
    Real.rpow_pos_of_pos (by norm_num) x
  refine ⟨?_, ?_, ?_, ?_⟩
  · intro r
    rw [win_expectancy, sub_self, zero_div, Real.rpow_zero]
    norm_num
  · intro r1 r2 s1 s2 h
    rw [win_expectancy, win_expectancy]
    have hexp : (s2 - s1) / 400 < (r2 - r1) / 400 := by linarith
    have hlt : (10 : ℝ) ^ ((s2 - s1) / 400) < (10 : ℝ) ^ ((r2 - r1) / 400) :=
      (Real.rpow_lt_rpow_left_iff (by norm_num)).mpr hexp
    exact one_div_lt_one_div_of_lt
      (by linarith [hpos ((s2 - s1) / 400)]) (by linarith)
  · intro r1 r2
    constructor
    · rw [win_expectancy]
      positivity
    · rw [win_expectancy, div_lt_one (by linarith [hpos ((r2 - r1) / 400)])]
      linarith [hpos ((r2 - r1) / 400)]
  · intro r1 r2
    rw [win_expectancy, win_expectancy]
    have hx : (r1 - r2) / 400 = -((r2 - r1) / 400) := by ring
    rw [hx, Real.rpow_neg (by norm_num : (0 : ℝ) ≤ 10)]
    have hA := hpos ((r2 - r1) / 400)
    field_simp
    ring

/-- Witness for C6 at concrete ratings. -/
theorem C6_win_expectancy_properties_witness :
    win_expectancy 1500 1500 = 1 / 2 ∧
    win_expectancy 1400 1500 < win_expectancy 1500 1400 ∧
    (0 < win_expectancy 1500 1400 ∧ win_expectancy 1500 1400 < 1) ∧
    win_expectancy 1500 1400 + win_expectancy 1400 1500 = 1 :=
  ⟨C6_win_expectancy_properties.1 1500,
   C6_win_expectancy_properties.2.1 1400 1500 1500 1400 (by norm_num),
   C6_win_expectancy_properties.2.2.1 1500 1400,
   C6_win_expectancy_properties.2.2.2 1500 1400⟩

/-- C4: for every match accepted by `process`, the committed rating deltas
sum to zero over any name set covering the match's participants: no match
changes the total rating mass. -/
theorem C4_zero_sum (cat : String) (st : EloState) (line : String)
    (st' : EloState) (h : process cat st line = some st')
    (S : Finset String) (hS : participants line ⊆ S) :
    S.sum (fun n => st'.ratings n - st.ratings n) = 0 := by
  rcases process_some_cases cat st line st' h with rfl | hpm
  · simp
  · obtain ⟨st2, hp, hrat, -, -, -, -⟩ := processMatch_spec st _ _
      (winnerToks_ne_nil line) (loserSides_sides_ne_nil line)
    rw [hpm] at hp
    injection hp with hst
    subst hst
    have hcov : ∀ e ∈ subContests (winnerToks line) (loserSides line),
        e.self ∈ S ∧ e.opp ∈ S := by
      intro e he
      constructor
      · apply hS
        simp only [participants, List.mem_toFinset, List.mem_flatMap]
        exact ⟨e, he, by simp⟩
      · apply hS
        simp only [participants, List.mem_toFinset, List.mem_flatMap]
        exact ⟨e, he, by simp⟩
    calc S.sum (fun n => st'.ratings n - st.ratings n)
        = S.sum (fun n =>
            matchDelta st.ratings (winnerToks line) (loserSides line) n /
              ((winnerToks line).length : ℝ)) := by
          refine Finset.sum_congr rfl fun n _ => ?_
          rw [hrat n]
          ring
      _ = S.sum (fun n =>
            matchDelta st.ratings (winnerToks line) (loserSides line) n) /
              ((winnerToks line).length : ℝ) := by
          rw [Finset.sum_div]
      _ = 0 := by
          rw [sum_matchDelta_zero st.ratings _ _ S hcov, zero_div]

/-- Witness for C4 on a concrete two-player record. -/
theorem C4_zero_sum_witness :
    (participants "1,,,Alice,Bob").sum (fun n =>
      ((process "overall" initState "1,,,Alice,Bob").getD initState).ratings n -
        initState.ratings n) = 0 :=
  C4_zero_sum "overall" initState "1,,,Alice,Bob"
    ((process "overall" initState "1,,,Alice,Bob").getD initState) rfl
    (participants "1,,,Alice,Bob") (Finset.Subset.refl _)

/-- C5: for every accepted, non-filtered record, every sub-contest delta is
computed from the pre-match ratings `st.ratings` (one snapshot, never
intermediate results), and the final table adds all normalized deltas in one
batch. -/
theorem C5_snapshot_batch (cat : String) (st : EloState) (line : String)
    (hb : ((pyStrip line).data.isEmpty || startsHash (pyStrip line)) = false)
    (hlen : ¬(parsedParts line).length < 4)
    (hsk : skips cat line = false) :
    ∃ st', process cat st line = some st' ∧
      ∀ n, st'.ratings n = st.ratings n +
        (((subContests (winnerToks line) (loserSides line)).map
          (fun e => contrib st.ratings e n)).sum) /
          ((winnerToks line).length : ℝ) := by
  obtain ⟨st', hp, hrat, -, -, -, -⟩ := process_spec cat st line hb hlen hsk
  exact ⟨st', hp, fun n => by rw [hrat n, matchDelta]⟩

/-- Witness for C5 on a concrete record. -/
theorem C5_snapshot_batch_witness :
    ∃ st', process "overall" initState "1,,,Alice,Bob" = some st' ∧
      ∀ n, st'.ratings n = initState.ratings n +
        (((subContests (winnerToks "1,,,Alice,Bob") (loserSides "1,,,Alice,Bob")).map
          (fun e => contrib initState.ratings e n)).sum) /
          ((winnerToks "1,,,Alice,Bob").length : ℝ) :=
  C5_snapshot_batch "overall" initState "1,,,Alice,Bob"
    (by decide) (by decide) (by decide)

/-- C10: for every non-blank, non-comment record with at least 4 fields,
`process` never fails (no division by zero or unbound divisor); when at least
one losing side exists, the leaked divisor is the number of winner tokens,
which is at least 1. -/
theorem C10_division_safe (cat : String) (st : EloState) (line : String)
    (hb : ((pyStrip line).data.isEmpty || startsHash (pyStrip line)) = false)
    (hlen : ¬(parsedParts line).length < 4) :
    (process cat st line).isSome = true ∧
    (loserSides line ≠ [] →
      (loserLoop (statsPass st (winnerToks line) (loserSides line)).ratings
        (winnerToks line) (loserSides line) dInit none).2 =
          some (winnerToks line).length ∧
      1 ≤ (winnerToks line).length) := by
  constructor
  · by_cases hsk : skips cat line = true
    · simp [process, hb, hlen, hsk]
    · obtain ⟨st', hp, -⟩ := process_spec cat st line hb hlen
        (Bool.not_eq_true _ ▸ hsk)
      rw [hp]
      rfl
  · intro hls
    refine ⟨loserLoop_oc _ _ _ (loserSides_sides_ne_nil line) hls _ _, ?_⟩
    have hne := winnerToks_ne_nil line
    cases hwt : winnerToks line with
    | nil => exact absurd hwt hne
    | cons a as => rw [List.length_cons]; omega

/-- Witness for C10 on a concrete record. -/
theorem C10_division_safe_witness :
    (process "overall" initState "1,,,Alice,Bob").isSome = true ∧
    (loserLoop (statsPass initState (winnerToks "1,,,Alice,Bob")
        (loserSides "1,,,Alice,Bob")).ratings (winnerToks "1,,,Alice,Bob")
        (loserSides "1,,,Alice,Bob") dInit none).2 =
      some (winnerToks "1,,,Alice,Bob").length ∧
    1 ≤ (winnerToks "1,,,Alice,Bob").length := by
  obtain ⟨h1, h2⟩ := C10_division_safe "overall" initState "1,,,Alice,Bob"
    (by decide) (by decide)
  obtain ⟨h3, h4⟩ := h2 (by decide)
  exact ⟨h1, h3, h4⟩

/-- C9: a non-blank, non-comment, non-filtered record with exactly four
comma-fields (so zero loser fields) is accepted without error: each winner
token's win and tally counts are incremented, the loss counts and the whole
rating table are left unchanged. -/
theorem C9_winners_only_record (cat : String) (st : EloState) (line : String)
    (hb : ((pyStrip line).data.isEmpty || startsHash (pyStrip line)) = false)
    (hlen4 : (parsedParts line).length = 4)
    (hsk : skips cat line = false) :
    ∃ st', process cat st line = some st' ∧
      st'.ratings = st.ratings ∧
      (∀ n, st'.wins n = st.wins n +
        ((winnerToks line).filter (fun t => bare_name t == n)).length) ∧
      (∀ n, st'.losses n = st.losses n) ∧
      (∀ n, st'.killings n = st.killings n +
        (((winnerToks line).filter (fun t => bare_name t == n)).map
          (fun t => t.data.count '!')).sum) ∧
      (∀ n, st'.maimings n = st.maimings n +
        (((winnerToks line).filter (fun t => bare_name t == n)).map
          (fun t => t.data.count '*')).sum) := by
  have hls : loserSides line = [] := by
    rw [loserSides, List.drop_eq_nil_of_le (by omega)]
    rfl
  obtain ⟨st', hp, hrat, hw, hl, hk, hm⟩ := process_spec cat st line hb
    (by omega) hsk
  rw [hls] at hw hl hk hm
  refine ⟨st', hp, ?_, ?_, ?_, ?_, ?_⟩
  · funext n
    rw [hrat n, hls, matchDelta_nil, zero_div, add_zero]
  · intro n
    rw [hw]
    simp only [statsPass, List.flatten_nil, List.foldl_nil]
    rw [foldl_tallyWinner_wins]
  · intro n
    rw [hl]
    simp only [statsPass, List.flatten_nil, List.foldl_nil]
    rw [foldl_tallyWinner_losses]
  · intro n
    rw [hk]
    simp only [statsPass, List.flatten_nil, List.foldl_nil]
    rw [foldl_tallyWinner_killings]
  · intro n
    rw [hm]
    simp only [statsPass, List.flatten_nil, List.foldl_nil]
    rw [foldl_tallyWinner_maimings]

/-- Witness for C9 on the four-field record `"1,,,Alice"`. -/
theorem C9_winners_only_record_witness :
    ((process "overall" initState "1,,,Alice").getD initState).ratings =
      initState.ratings ∧
    ((process "overall" initState "1,,,Alice").getD initState).wins "Alice" = 1 ∧
    ((process "overall" initState "1,,,Alice").getD initState).losses "Alice" = 0 := by
  obtain ⟨st', hp, hrat, hw, hl, -, -⟩ := C9_winners_only_record "overall"
    initState "1,,,Alice" (by decide) (by decide) (by decide)
  rw [hp, Option.getD_some]
  refine ⟨hrat, ?_, ?_⟩
  · rw [hw "Alice"]
    decide
  · rw [hl "Alice"]
    decide

lemma rating_delta_start :
    rating_delta STARTING_RATING STARTING_RATING 1 = 25 := by
  rw [rating_delta, win_expectancy, sub_self, zero_div, Real.rpow_zero]
  norm_num

/-- C1 counterexample: for the record one winner (`Alice`) vs one losing team
of two (`Bob&Carol`), the divisor actually used is the opponent count leaked
from the final loser iteration, 1 (the number of winner tokens), not 2:
Alice finishes at 1550 = 1500 + (25 + 25) / 1, not 1525. -/
theorem C1_counterexample :
    winnerToks "1,,,Alice,Bob&Carol" = ["Alice"] ∧
    loserSides "1,,,Alice,Bob&Carol" = [["Bob", "Carol"]] ∧
    (loserLoop (statsPass initState (winnerToks "1,,,Alice,Bob&Carol")
        (loserSides "1,,,Alice,Bob&Carol")).ratings (winnerToks "1,,,Alice,Bob&Carol")
        (loserSides "1,,,Alice,Bob&Carol") dInit none).2 = some 1 ∧
    ((process "overall" initState "1,,,Alice,Bob&Carol").getD initState).ratings
      "Alice" = 1550 := by
  refine ⟨by decide, by decide, by decide, ?_⟩
  obtain ⟨st', hp, hrat, -, -, -, -⟩ := process_spec "overall" initState
    "1,,,Alice,Bob&Carol" (by decide) (by decide) (by decide)
  rw [hp, Option.getD_some, hrat "Alice"]
  have hsc : subContests (winnerToks "1,,,Alice,Bob&Carol")
      (loserSides "1,,,Alice,Bob&Carol") =
      [⟨"Alice", "Bob", true⟩, ⟨"Alice", "Carol", true⟩] := by decide
  have hlen1 : (winnerToks "1,,,Alice,Bob&Carol").length = 1 := by decide
  rw [matchDelta, hsc, hlen1]
  have hab : ("Alice" : String) ≠ "Bob" := by decide
  have hac : ("Alice" : String) ≠ "Carol" := by decide
  simp only [List.map_cons, List.map_nil, List.sum_cons, List.sum_nil, contrib,
    wval, eq_self_iff_true, hab, hac, if_true, if_false, add_zero, initState]
  simp only [rating_delta_start]
  norm_num [STARTING_RATING]

/-- C1 (amended): every accepted, non-filtered record with at least one
losing side divides all accumulated deltas by one single shared divisor: the
opponent count leaked from the final loser iteration, which always equals the
number of winner tokens (so for one winner against one losing team of two the
divisor is 1, not 2, and it equals each loser's own sub-contest count only
when there is a single losing side). -/
theorem C1_shared_divisor (cat : String) (st : EloState) (line : String)
    (hb : ((pyStrip line).data.isEmpty || startsHash (pyStrip line)) = false)
    (hlen : ¬(parsedParts line).length < 4)
    (hsk : skips cat line = false)
    (hls : loserSides line ≠ []) :
    ∃ st', process cat st line = some st' ∧
      (loserLoop (statsPass st (winnerToks line) (loserSides line)).ratings
        (winnerToks line) (loserSides line) dInit none).2 =
        some (winnerToks line).length ∧
      ∀ n, st'.ratings n = st.ratings n +
        matchDelta st.ratings (winnerToks line) (loserSides line) n /
          ((winnerToks line).length : ℝ) := by
  obtain ⟨st', hp, hrat, -, -, -, -⟩ := process_spec cat st line hb hlen hsk
  exact ⟨st', hp,
    loserLoop_oc _ _ _ (loserSides_sides_ne_nil line) hls _ _, hrat⟩

/-- Witness for the amended C1 on the one-winner-vs-team-of-two record. -/
theorem C1_shared_divisor_witness :
    ∃ st', process "overall" initState "1,,,Alice,Bob&Carol" = some st' ∧
      (loserLoop (statsPass initState (winnerToks "1,,,Alice,Bob&Carol")
        (loserSides "1,,,Alice,Bob&Carol")).ratings (winnerToks "1,,,Alice,Bob&Carol")
        (loserSides "1,,,Alice,Bob&Carol") dInit none).2 =
        some (winnerToks "1,,,Alice,Bob&Carol").length ∧
      ∀ n, st'.ratings n = initState.ratings n +
        matchDelta initState.ratings (winnerToks "1,,,Alice,Bob&Carol")
          (loserSides "1,,,Alice,Bob&Carol") n /
          ((winnerToks "1,,,Alice,Bob&Carol").length : ℝ) :=
  C1_shared_divisor "overall" initState "1,,,Alice,Bob&Carol"
    (by decide) (by decide) (by decide) (by decide)

/-- C2 counterexample: the literal record `"1,Alice,Bob,Carol"` has exactly 4
comma-fields, so the code reads `Alice`/`Bob` as the two tag fields and
`Carol` as the winner, with NO losing sides: no sub-contests at all are
recorded (in particular no draw), and Bob records no loss.  Moreover even for
the intended form `"1,,,Alice,Bob,Carol"` the normalization divisor is the
leaked count 1, not a per-Bob count. -/
theorem C2_counterexample :
    subContests (winnerToks "1,Alice,Bob,Carol") (loserSides "1,Alice,Bob,Carol") = [] ∧
    ((process "overall" initState "1,Alice,Bob,Carol").getD initState).losses
      "Bob" = 0 ∧
    ((process "overall" initState "1,Alice,Bob,Carol").getD initState).wins
      "Carol" = 1 ∧
    (loserLoop (statsPass initState (winnerToks "1,,,Alice,Bob,Carol")
        (loserSides "1,,,Alice,Bob,Carol")).ratings (winnerToks "1,,,Alice,Bob,Carol")
        (loserSides "1,,,Alice,Bob,Carol") dInit none).2 = some 1 :=
  ⟨by decide, by decide, by decide, by decide⟩

/-- C2 (amended): for the record `"1,,,Alice,Bob,Carol"` (two losing sides,
Bob then Carol), the sub-contests are winner-vs-loser for each loser plus
exactly one loser-vs-loser draw (result 0.5) between Bob and Carol — pairing
only with strictly later sides; 2 of the 3 sub-contests touch Bob, but the
opponent count used for normalization is 1, the count leaked by the final
loser iteration (Carol's single winner-pair). -/
theorem C2_sub_contests :
    subContests (winnerToks "1,,,Alice,Bob,Carol") (loserSides "1,,,Alice,Bob,Carol") =
      [⟨"Alice", "Bob", true⟩, ⟨"Bob", "Carol", false⟩, ⟨"Alice", "Carol", true⟩] ∧
    wval false = 1 / 2 ∧
    ((subContests (winnerToks "1,,,Alice,Bob,Carol")
      (loserSides "1,,,Alice,Bob,Carol")).filter (fun e => !e.win)).length = 1 ∧
    ((subContests (winnerToks "1,,,Alice,Bob,Carol")
      (loserSides "1,,,Alice,Bob,Carol")).filter
        (fun e => e.self == "Bob" || e.opp == "Bob")).length = 2 ∧
    (loserLoop (statsPass initState (winnerToks "1,,,Alice,Bob,Carol")
        (loserSides "1,,,Alice,Bob,Carol")).ratings (winnerToks "1,,,Alice,Bob,Carol")
        (loserSides "1,,,Alice,Bob,Carol") dInit none).2 = some 1 := by
  refine ⟨by decide, ?_, by decide, by decide, by decide⟩
  rw [wval, if_neg]
  simp

/-- C3 counterexample: the literal record `"1,Alice,Bob"` has only 3
comma-fields, so `assert len(parts) >= 4` fails and processing aborts; no
ratings or statistics are produced at all. -/
theorem C3_counterexample :
    process "overall" initState "1,Alice,Bob" = none := rfl

/-- C3 (amended): with the record written in the code's field layout,
`"1,,,Alice,Bob"` (empty tag fields), processing from fresh tables yields one
single sub-contest with opponent count 1, Alice's rating 1500 + 25/1 = 1525,
Bob's 1475, and statistics Alice 1-0, Bob 0-1. -/
theorem C3_two_player_scenario :
    ((process "overall" initState "1,,,Alice,Bob").getD initState).ratings
      "Alice" = 1525 ∧
    ((process "overall" initState "1,,,Alice,Bob").getD initState).ratings
      "Bob" = 1475 ∧
    ((process "overall" initState "1,,,Alice,Bob").getD initState).wins
      "Alice" = 1 ∧
    ((process "overall" initState "1,,,Alice,Bob").getD initState).losses
      "Alice" = 0 ∧
    ((process "overall" initState "1,,,Alice,Bob").getD initState).wins
      "Bob" = 0 ∧
    ((process "overall" initState "1,,,Alice,Bob").getD initState).losses
      "Bob" = 1 ∧
    subContests (winnerToks "1,,,Alice,Bob") (loserSides "1,,,Alice,Bob") =
      [⟨"Alice", "Bob", true⟩] ∧
    (loserLoop (statsPass initState (winnerToks "1,,,Alice,Bob")
        (loserSides "1,,,Alice,Bob")).ratings (winnerToks "1,,,Alice,Bob")
        (loserSides "1,,,Alice,Bob") dInit none).2 = some 1 := by
  obtain ⟨st', hp, hrat, -, -, -, -⟩ := process_spec "overall" initState
    "1,,,Alice,Bob" (by decide) (by decide) (by decide)
  have hsc : subContests (winnerToks "1,,,Alice,Bob") (loserSides "1,,,Alice,Bob") =
      [⟨"Alice", "Bob", true⟩] := by decide
  have hlen1 : (winnerToks "1,,,Alice,Bob").length = 1 := by decide
  refine ⟨?_, ?_, by decide, by decide, by decide, by decide, by decide, by decide⟩
  · rw [hp, Option.getD_some, hrat "Alice", matchDelta, hsc, hlen1]
    have hab : ("Alice" : String) ≠ "Bob" := by decide
    simp only [List.map_cons, List.map_nil, List.sum_cons, List.sum_nil, contrib,
      wval, eq_self_iff_true, hab, if_true, if_false, add_zero, initState]
    simp only [rating_delta_start]
    norm_num [STARTING_RATING]
  · rw [hp, Option.getD_some, hrat "Bob", matchDelta, hsc, hlen1]
    have hba : ("Bob" : String) ≠ "Alice" := by decide
    simp only [List.map_cons, List.map_nil, List.sum_cons, List.sum_nil, contrib,
      wval, eq_self_iff_true, hba, if_true, if_false, zero_add, add_zero, initState]
    simp only [rating_delta_start]
    norm_num [STARTING_RATING]

/-- C7 counterexample: an empty winners field is NOT a fatal error.  In
`"1,,,,Bob"` the winners field is empty; it splits into the single empty-string
token, which is processed as a normal participant: the record is accepted and
the empty string is credited with a win. -/
theorem C7_counterexample :
    (process "overall" initState "1,,,,Bob").isSome = true ∧
    winnerToks "1,,,,Bob" = [""] ∧
    ((process "overall" initState "1,,,,Bob").getD initState).wins "" = 1 :=
  ⟨by decide, by decide, by decide⟩

/-- C7 (amended): a winners or losers field never splits into zero tokens —
`explode` always produces at least one (possibly empty-string) token per side
— so the "empty side" error case is unreachable, and a record with an empty
field is accepted and processed with the empty string as a participant. -/
theorem C7_no_empty_sides :
    (∀ (li : List String) (s : List String), s ∈ explode li → s ≠ []) ∧
    (process "overall" initState "1,,,,Bob").isSome = true ∧
    ((process "overall" initState "1,,,,Bob").getD initState).wins "" = 1 ∧
    ((process "overall" initState "1,,,,Bob").getD initState).losses "Bob" = 1 :=
  ⟨fun _ _ hs => explode_mem_ne_nil hs, by decide, by decide, by decide⟩

/-- Witness for the amended C7: the side produced by the empty field of
`"1,,,,Bob"` is the non-empty single-token side `[""]`. -/
theorem C7_no_empty_sides_witness :
    ([""] : List String) ≠ [] ∧
    (process "overall" initState "1,,,,Bob").isSome = true :=
  ⟨C7_no_empty_sides.1 [""] [""] (by decide), C7_no_empty_sides.2.1⟩

/-- C8: statistics are credited to the stripped canonical name while marks
are counted on the unstripped token — `"Dave!!*"` adds 2 killings and 1
maiming to `"Dave"` — and no table is ever touched at a non-canonical
(mark-carrying) name. -/
theorem C8_mark_tallying :
    (∀ (cat : String) (st : EloState) (line : String) (st' : EloState),
      process cat st line = some st' → ∀ n, bare_name n ≠ n →
        st'.ratings n = st.ratings n ∧ st'.wins n = st.wins n ∧
        st'.losses n = st.losses n ∧ st'.killings n = st.killings n ∧
        st'.maimings n = st.maimings n) ∧
    ((process "overall" initState "1,,,Dave!!*,Bob").getD initState).killings
      "Dave" = 2 ∧
    ((process "overall" initState "1,,,Dave!!*,Bob").getD initState).maimings
      "Dave" = 1 ∧
    ((process "overall" initState "1,,,Dave!!*,Bob").getD initState).wins
      "Dave" = 1 ∧
    ((process "overall" initState "1,,,Dave!!*,Bob").getD initState).killings
      "Dave!!*" = 0 ∧
    ((process "overall" initState "1,,,Dave!!*,Bob").getD initState).wins
      "Dave!!*" = 0 := by
  constructor
  · intro cat st line st' h n hn
    rcases process_some_cases cat st line st' h with rfl | hpm
    · exact ⟨rfl, rfl, rfl, rfl, rfl⟩
    · obtain ⟨st2, hp, hrat, hw, hl, hk, hm⟩ := processMatch_spec st _ _
        (winnerToks_ne_nil line) (loserSides_sides_ne_nil line)
      rw [hpm] at hp
      injection hp with hst
      subst hst
      obtain ⟨sw, sl, sk, sm⟩ :=
        statsPass_nonbare st (winnerToks line) (loserSides line) hn
      refine ⟨?_, ?_, ?_, ?_, ?_⟩
      · rw [hrat n, matchDelta_nonbare st.ratings _ _ hn, zero_div, add_zero]
      · rw [hw, sw]
      · rw [hl, sl]
      · rw [hk, sk]
      · rw [hm, sm]
  · exact ⟨by decide, by decide, by decide, by decide, by decide⟩

/-- Witness for C8: applied to the concrete record `"1,,,Dave!!*,Bob"` at the
non-canonical name `"Dave!!*"`. -/
theorem C8_mark_tallying_witness :
    ((process "overall" initState "1,,,Dave!!*,Bob").getD initState).wins
      "Dave!!*" = initState.wins "Dave!!*" ∧
    ((process "overall" initState "1,,,Dave!!*,Bob").getD initState).killings
      "Dave" = 2 := by
  have h : process "overall" initState "1,,,Dave!!*,Bob" =
      some ((process "overall" initState "1,,,Dave!!*,Bob").getD initState) := rfl
  exact ⟨(C8_mark_tallying.1 "overall" initState "1,,,Dave!!*,Bob" _ h
    "Dave!!*" (by decide)).2.1, C8_mark_tallying.2.1⟩

end Groupelo
